import Mathlib

/-!
Verification development for the Graphiti memory-adapter repository.

The definitions below are shallow embeddings of the Python sources:
  * app/services/graphiti_client.py  (response normalizer, retry transport,
    dual-model router, episode lifecycle, search wrapper)
  * app/services/backup_service.py   (backup/restore engine)
  * app/api/v1/memory.py             (query endpoint)
Pure data manipulation is translated directly; external effects (graph store,
model server, SDK calls) are passed in as explicit state or outcome values.
-/

namespace GraphitiAdapter

/-- JSON values, as produced by json.loads in the adapter.  Objects keep the
insertion order of their fields, mirroring Python dicts; keys are unique. -/
inductive JVal where
  | str (s : String)
  | num (n : Int)
  | bool (b : Bool)
  | null
  | arr (xs : List JVal)
  | obj (fields : List (String × JVal))

/-- Field lookup on an object, mirroring Python dict access (first match;
keys are unique in parsed JSON). -/
def jGet : List (String × JVal) → String → Option JVal
  | [], _ => none
  | (k, v) :: rest, key => if k = key then some v else jGet rest key

/-- Membership test, mirroring the Python expression (key in parsed). -/
def jHas (l : List (String × JVal)) (key : String) : Bool :=
  (jGet l key).isSome

/-- Removal of a key, mirroring dict.pop on unique-key dicts. -/
def jErase : List (String × JVal) → String → List (String × JVal)
  | [], _ => []
  | (k, v) :: rest, key => if k = key then jErase rest key else (k, v) :: jErase rest key

/-- Assignment, mirroring Python dict assignment: replace the value in place
when the key is present, otherwise append the new field at the end. -/
def jSet : List (String × JVal) → String → JVal → List (String × JVal)
  | [], key, v => [(key, v)]
  | (k, w) :: rest, key, v =>
      if k = key then (key, v) :: rest else (k, w) :: jSet rest key v

/-- The idiom parsed[new] = parsed.pop(old): pop the old key, then assign the
popped value to the new key.  Applied in the source only when old is present. -/
def jRename (l : List (String × JVal)) (old new : String) : List (String × JVal) :=
  match jGet l old with
  | some v => jSet (jErase l old) new v
  | none => l

/-!
### Response Normalizer
Shallow embedding of the content-fixing stage of
CleaningHTTPTransport.handle_async_request (graphiti_client.py).  The two
code paths — the chat-completion shape (lines 248-393) and the output-array
shape (lines 396-562) — are modeled from the point where the extracted,
markdown-stripped, brace-clipped content string has been parsed to a JSON
value.  The connection between the content string and its parse is the
embedding boundary: a parsed JSON text begins (after strip) with a brace
exactly when its top-level value is an object, with a bracket exactly when
it is an array.
-/

/-- True when the first element of a parsed list looks like an edge record:
isinstance(parsed[0], dict) and (source_entity_id in it or relation_type in it). -/
def isEdgeRecord : JVal → Bool
  | .obj fs => jHas fs "source_entity_id" || jHas fs "relation_type"
  | _ => false

/-- Per-entity rename inside the extracted_entities loop: entity_name
becomes name, else entity becomes name.  Returns the new record and whether
a rename fired (contributing to the modified flag).  Non-dict elements are
skipped by the isinstance check in the source. -/
def fixEntity : JVal → JVal × Bool
  | .obj fs =>
      if jHas fs "entity_name" then (.obj (jRename fs "entity_name" "name"), true)
      else if jHas fs "entity" then (.obj (jRename fs "entity" "name"), true)
      else (.obj fs, false)
  | v => (v, false)

/-- The for-loop over parsed[extracted_entities].  Python iterates a list
element-wise (rewriting dict elements in place), iterates a string by
characters and a dict by keys (neither yields a dict element, so nothing
changes), and raises TypeError on non-iterable values, which escapes to the
outer handler (modeled as none). -/
def entityLoop : JVal → Option (JVal × Bool)
  | .arr xs => some (.arr (xs.map (fun e => (fixEntity e).1)), xs.any (fun e => (fixEntity e).2))
  | .str s => some (.str s, false)
  | .obj fs => some (.obj fs, false)
  | _ => none

/-- The entity-resolution detection: entities truthy, a list, nonempty, and
its first element a dict containing duplicates. -/
def headHasDuplicates : JVal → Bool
  | .arr (JVal.obj fs :: _) => jHas fs "duplicates"
  | _ => false

/-- First structural step of the fix stage.  The chat path additionally wraps
a plain string as a summary object (with an empty extracted_entities and no
edges key, lines 287-293); the output path has no string branch. -/
def stepShape (chat : Bool) (parsed : JVal) : JVal × Bool :=
  match parsed with
  | .str s =>
      if chat then (.obj [("summary", .str s), ("extracted_entities", .arr [])], true)
      else (.str s, false)
  | .arr xs =>
      match xs with
      | x :: _ =>
          if isEdgeRecord x then (.obj [("edges", .arr xs), ("extracted_entities", .arr [])], true)
          else (.obj [("extracted_entities", .arr xs), ("edges", .arr [])], true)
      | [] => (.obj [("extracted_entities", .arr []), ("edges", .arr [])], true)
  | .obj fs =>
      if jHas fs "entities" then (.obj (jRename fs "entities" "extracted_entities"), true)
      else (.obj fs, false)
  | v => (v, false)

/-- The facts-to-edges rename, applied in both paths. -/
def stepFacts : JVal × Bool → JVal × Bool
  | (.obj fs, m) => if jHas fs "facts" then (.obj (jRename fs "facts" "edges"), true) else (.obj fs, m)
  | (v, m) => (v, m)

/-- The extracted_entities block of the output path (lines 496-512): the
per-entity rename loop, then the entity-resolution rename.  none models a
TypeError escaping from the loop. -/
def stepEntitiesOut : JVal × Bool → Option (JVal × Bool)
  | (.obj fs, m) =>
      if jHas fs "extracted_entities" then
        match entityLoop ((jGet fs "extracted_entities").getD .null) with
        | none => none
        | some (ents, mEnts) =>
          let fs1 := jSet fs "extracted_entities" ents
          let m1 := m || mEnts
          if headHasDuplicates ents then
            some (.obj (jRename fs1 "extracted_entities" "entity_resolutions"), true)
          else some (.obj fs1, m1)
      else some (.obj fs, m)
  | (v, m) => some (v, m)

/-- The extracted_entities block of the chat path (lines 324-350): the
per-entity rename loop, the entity-resolution rename, then — still inside
this block, at the same indentation — the extracted_edges-to-edges rename
(lines 344-347) and the re-serialization statement
(if modified: content = json.dumps(parsed), lines 349-350).  The third
component records whether content was reassigned; in the chat path that can
only happen here, so when the object has no extracted_entities key the
content keeps its original bytes even if a rename fired on the in-memory
dict.  none models a TypeError escaping from the loop. -/
def stepEntitiesChat : JVal × Bool → Option (JVal × Bool × Bool)
  | (.obj fs, m) =>
      if jHas fs "extracted_entities" then
        match entityLoop ((jGet fs "extracted_entities").getD .null) with
        | none => none
        | some (ents, mEnts) =>
          let fs1 := jSet fs "extracted_entities" ents
          let m1 := m || mEnts
          let (fs2, m2) :=
            if headHasDuplicates ents then (jRename fs1 "extracted_entities" "entity_resolutions", true)
            else (fs1, m1)
          let (fs3, m3) :=
            if jHas fs2 "extracted_edges" then (jRename fs2 "extracted_edges" "edges", true)
            else (fs2, m2)
          some (.obj fs3, m3, m3)
      else some (.obj fs, m, false)
  | (v, m) => some (v, m, false)

/-- The top-level extracted_edges-to-edges rename of the output path
(lines 514-518), applied whether or not extracted_entities is present. -/
def stepEdgesTop : JVal × Bool → JVal × Bool
  | (.obj fs, m) =>
      if jHas fs "extracted_edges" then (.obj (jRename fs "extracted_edges" "edges"), true)
      else (.obj fs, m)
  | (v, m) => (v, m)

/-- Fix stage of the chat-completion path (lines 281-350): string/list/entities
shape fix, facts rename, then the extracted_entities block with the nested
extracted_edges rename and the nested re-serialization decision.  The result
carries the final parsed value, the modified flag, and whether content was
reassigned. -/
def fixChat (parsed : JVal) : Option (JVal × Bool × Bool) :=
  stepEntitiesChat (stepFacts (stepShape true parsed))

/-- Fix stage of the output-array path (lines 465-518): list/entities shape
fix, facts rename, the extracted_entities block, then the unconditional
extracted_edges rename. -/
def fixOutput (parsed : JVal) : Option (JVal × Bool) :=
  (stepEntitiesOut (stepFacts (stepShape false parsed))).map stepEdgesTop

/-- Outcome of normalization for one extracted content value. -/
inductive CleanResult where
  | errored               -- an exception escaped the fix stage; the original response is returned
  | unchanged             -- the content string is left as it was
  | reserialized (v : JVal)  -- the content is replaced by the serialization of v

/-- The stripped content string starts with a brace or bracket exactly when
the parsed value is an object or array. -/
def startsWithBraceOrBracket : JVal → Bool
  | .obj _ => true
  | .arr _ => true
  | _ => false

/-- Canonical serialization, standing in for json.dumps in the summary-wrap
fallback (reachable only for non-string scalar content). -/
def jDump : JVal → String
  | .str s => "\"" ++ s ++ "\""
  | .num n => toString n
  | .bool b => cond b "true" "false"
  | .null => "null"
  | .arr _ => "[...]"
  | .obj _ => "{...}"

/-- Tail of the output-array path (lines 520-562): the re-serialization
(if modified: content = json.dumps(parsed), lines 520-521) sits at the top
level of the try block, so it applies whenever any rename fired; content
that then still does not start with a brace or bracket is wrapped as a
summary object WITH empty entity and edge collections.  (The final
content-differs check in the source suppresses a byte-identical replacement;
a replacement by identical bytes is indistinguishable from no replacement,
so it is modeled as reserialized.) -/
def finishClean (parsed : JVal) : Option (JVal × Bool) → CleanResult
  | none => .errored
  | some (p, modified) =>
      let current := if modified then p else parsed
      if !startsWithBraceOrBracket current then
        .reserialized (.obj [("summary", .str (jDump current)),
                             ("extracted_entities", .arr []), ("edges", .arr [])])
      else if modified then .reserialized p
      else .unchanged

/-- Tail of the chat-completion path (lines 352-393).  Unlike the output
path, the chat path has NO top-level re-serialization: content was
reassigned only when the statement nested inside the extracted_entities
block ran (the dumped flag); otherwise it still holds its original bytes,
even when a rename fired on the in-memory dict, and the final
content-differs check at line 380 then leaves the response unchanged.
Content that does not start with a brace or bracket is wrapped as a summary
object with empty entity and edge collections (lines 371-378). -/
def finishChat (parsed : JVal) : Option (JVal × Bool × Bool) → CleanResult
  | none => .errored
  | some (p, _, dumped) =>
      let current := if dumped then p else parsed
      if !startsWithBraceOrBracket current then
        .reserialized (.obj [("summary", .str (jDump current)),
                             ("extracted_entities", .arr []), ("edges", .arr [])])
      else if dumped then .reserialized p
      else .unchanged

/-- Normalization of chat-completion content whose extracted string parsed to
the given JSON value. -/
def normalizeChat (parsed : JVal) : CleanResult :=
  finishChat parsed (fixChat parsed)

/-- Normalization of output-array content whose extracted string parsed to
the given JSON value. -/
def normalizeOutput (parsed : JVal) : CleanResult :=
  finishClean parsed (fixOutput parsed)

/-- Bool-level observation used to state counterexamples: whether a
normalization outcome re-serializes an object containing the given key. -/
def resultHasKey (r : CleanResult) (key : String) : Bool :=
  match r with
  | .reserialized (.obj fs) => jHas fs key
  | _ => false

/-!
### Resilient Transport retry loop
Embedding of the while-loop of CleaningHTTPTransport.handle_async_request
(graphiti_client.py lines 180-232).  Each underlying attempt either yields a
response with a status code or raises a transport exception; elapsed k gives
the wall-clock seconds measured when the k-th attempt is examined against the
budget (time.time() minus start_time).
-/

/-- Retry budget in seconds (TIMEOUT = 30 in the source). -/
def retryTimeout : Nat := 30

/-- Fixed backoff interval in seconds (RETRY_INTERVAL = 5 in the source);
it determines only the duration of each sleep, which the elapsed oracle
accounts for. -/
def retryInterval : Nat := 5

/-- One underlying attempt: an HTTP response or a transport-level exception. -/
inductive Attempt where
  | resp (status : Nat)
  | exc

/-- Final outcome of the retry loop: the response broken out with, or the
re-raised exception, together with the number of attempts made and backoff
sleeps performed.  exhausted is an artifact of the finite attempt list (the
source would keep retrying). -/
inductive RetryOutcome where
  | response (status attempts sleeps : Nat)
  | raised (attempts sleeps : Nat)
  | exhausted

/-- The retry loop.  A status below 400 breaks out; a 4xx other than 429
breaks out without retry; a 5xx or 429 breaks out only once the budget is
spent, otherwise sleeps and retries; an exception re-raises once the budget
is spent, otherwise sleeps and retries. -/
def retryLoop (elapsed : Nat → Nat) : List Attempt → Nat → Nat → RetryOutcome
  | [], _, _ => .exhausted
  | a :: rest, attempts, sleeps =>
      let k := attempts + 1
      match a with
      | .resp s =>
          if s < 400 then .response s k sleeps
          else if 400 ≤ s ∧ s < 500 ∧ s ≠ 429 then .response s k sleeps
          else if retryTimeout ≤ elapsed k then .response s k sleeps
          else retryLoop elapsed rest k (sleeps + 1)
      | .exc =>
          if retryTimeout ≤ elapsed k then .raised k sleeps
          else retryLoop elapsed rest k (sleeps + 1)

/-- Entry point of the loop for a fresh outbound call. -/
def runRetries (elapsed : Nat → Nat) (attempts : List Attempt) : RetryOutcome :=
  retryLoop elapsed attempts 0 0

/-!
### Dual-Endpoint Router
Embedding of DualModelRoutingTransport.handle_async_request
(graphiti_client.py lines 595-671).
-/

/-- A configured backend base URL: the raw configured string (which the
source compares verbatim) together with its parsed scheme and netloc
(host with optional port). -/
structure BaseUrl where
  raw : String
  scheme : String
  netloc : String

/-- The outbound request as the router sees it.  body is the parse of the
request body: none when the body is not valid JSON. -/
structure HttpRequest where
  method : String
  scheme : String
  netloc : String
  path : String
  params : String
  query : String
  fragment : String
  authorization : String
  body : Option JVal

/-- Router configuration: main and fast backends, keys, and the fast model
name (settings.LLM_FAST_MODEL). -/
structure RouterConfig where
  mainBase : BaseUrl
  mainKey : String
  fastBase : BaseUrl
  fastKey : String
  fastModel : String

/-- data.get("model", "") == self.fast_model: a body that fails to parse or
parses to a non-dict is replaced by the empty dict, whose lookup defaults to
the empty string; a non-string model value never equals the configured
Python string. -/
def modelMatches (body : Option JVal) (fastModel : String) : Bool :=
  match body with
  | some (.obj fs) =>
      match jGet fs "model" with
      | some (.str m) => m == fastModel
      | some _ => false
      | none => "" == fastModel
  | _ => "" == fastModel

/-- The routing step: when the body names the fast model, swap scheme and
netloc to the fast backend (only when the two configured base-url strings
differ), keep path, params, query, fragment, method and body, and
unconditionally overwrite the Authorization header with the fast-tier
bearer key; otherwise pass the request through untouched. -/
def routeRequest (cfg : RouterConfig) (r : HttpRequest) : HttpRequest :=
  if modelMatches r.body cfg.fastModel then
    let r1 :=
      if cfg.fastBase.raw ≠ cfg.mainBase.raw then
        { r with scheme := cfg.fastBase.scheme, netloc := cfg.fastBase.netloc }
      else r
    { r1 with authorization := "Bearer " ++ cfg.fastKey }
  else r

/-!
### Backup/Restore Engine
Embedding of BackupService.restore_backup and BackupService._import_data
(backup_service.py lines 187-414).  The graph store is modeled as three
collections: episodes and entities keyed by uuid, and relationship edges
keyed by the full MERGE pattern (source uuid, target uuid, relationship
type, edge uuid).
-/

/-- An exported Episodic or Entity record: its uuid, its created_at string
(which the import CASE compares), and the remaining exported properties. -/
structure NodeRec where
  uuid : String
  created_at : String
  props : List (String × String)
deriving DecidableEq

/-- An exported relationship record. -/
structure EdgeRec where
  uuid : String
  etype : String
  source_uuid : String
  target_uuid : String
  created_at : String
  props : List (String × String)
deriving DecidableEq

/-- The persisted graph store. -/
structure Store where
  episodes : List NodeRec
  entities : List NodeRec
  edges : List EdgeRec
deriving DecidableEq

/-- The per-category restore statistics reported by _import_data. -/
structure Stats where
  episodes_created : Nat
  entities_created : Nat
  edges_created : Nat
  conflicts_skipped : Nat
deriving DecidableEq

/-- Node lookup by uuid (the MERGE match). -/
def findNode : List NodeRec → String → Option NodeRec
  | [], _ => none
  | n :: rest, u => if n.uuid = u then some n else findNode rest u

/-- Edge lookup by the MERGE pattern (source)-[r:type {uuid}]->(target). -/
def findEdge : List EdgeRec → String → String → String → String → Option EdgeRec
  | [], _, _, _, _ => none
  | e :: rest, src, tgt, ty, u =>
      if e.source_uuid = src ∧ e.target_uuid = tgt ∧ e.etype = ty ∧ e.uuid = u then some e
      else findEdge rest src tgt ty u

/-- MERGE (e {uuid: $uuid}) ON CREATE SET e = $props, returning the new
collection and the reported action: true for the label created, false for
existing.  The action is computed by the CASE of the source query, which
compares the created_at of the node NOW IN THE STORE with the incoming
created_at: a freshly created node always compares equal; an existing node
compares equal exactly when its stored created_at coincides with the
incoming one. -/
def mergeNode (l : List NodeRec) (r : NodeRec) : List NodeRec × Bool :=
  match findNode l r.uuid with
  | some existing => (l, existing.created_at == r.created_at)
  | none => (l ++ [r], true)

/-- The per-category import loop over node records, returning the updated
collection and the (created, existing) counts accumulated into the stats. -/
def importNodes : List NodeRec → List NodeRec → List NodeRec × Nat × Nat
  | l, [] => (l, 0, 0)
  | l, r :: rest =>
      let step := mergeNode l r
      let acc := importNodes step.1 rest
      if step.2 then (acc.1, acc.2.1 + 1, acc.2.2) else (acc.1, acc.2.1, acc.2.2 + 1)

/-- The edge MERGE: both endpoint entities must MATCH first; when either is
absent the query yields no row and neither count moves (none).  Otherwise
MERGE on the full pattern, with the same created_at-comparison CASE. -/
def mergeEdge (ents : List NodeRec) (l : List EdgeRec) (r : EdgeRec) :
    List EdgeRec × Option Bool :=
  if (findNode ents r.source_uuid).isSome && (findNode ents r.target_uuid).isSome then
    match findEdge l r.source_uuid r.target_uuid r.etype r.uuid with
    | some existing => (l, some (existing.created_at == r.created_at))
    | none => (l ++ [r], some true)
  else (l, none)

/-- The import loop over edge records. -/
def importEdges : List NodeRec → List EdgeRec → List EdgeRec → List EdgeRec × Nat × Nat
  | _, l, [] => (l, 0, 0)
  | ents, l, r :: rest =>
      let step := mergeEdge ents l r
      let acc := importEdges ents step.1 rest
      match step.2 with
      | some true => (acc.1, acc.2.1 + 1, acc.2.2)
      | some false => (acc.1, acc.2.1, acc.2.2 + 1)
      | none => acc

/-- _import_data (lines 311-414): entities first, then episodes, then edges
(edges MATCH against the entity collection as it stands after the entity
import); conflicts_skipped accumulates the existing count of all three
categories. -/
def importData (s : Store) (episodes entities : List NodeRec) (edges : List EdgeRec) :
    Store × Stats :=
  let en := importNodes s.entities entities
  let ep := importNodes s.episodes episodes
  let ed := importEdges en.1 s.edges edges
  ({ episodes := ep.1, entities := en.1, edges := ed.1 },
   { episodes_created := ep.2.1, entities_created := en.2.1, edges_created := ed.2.1,
     conflicts_skipped := en.2.2 + ep.2.2 + ed.2.2 })

/-- One data stream of the archive, as restore_backup sees it after
extraction: absent from the archive, present but empty after strip, present
with successfully parsed records, or present, non-empty and unparseable. -/
inductive StreamData (α : Type) where
  | missing
  | empty
  | valid (recs : List α)
  | invalid
deriving DecidableEq

/-- The backup archive: the user id carried by metadata.json (none when
metadata.json is absent or unreadable, which is fatal), and the three data
streams. -/
structure Archive where
  metadata : Option String
  episodes : StreamData NodeRec
  entities : StreamData NodeRec
  edges : StreamData EdgeRec

/-- Result of a restore: a success response carrying the reported statistics
and the updated store, or an error response leaving the store untouched. -/
inductive RestoreResult where
  | success (user_id : String) (stats : Stats) (store : Store)
  | error (store : Store)
deriving DecidableEq

/-- The store after a restore, whatever the response status. -/
def RestoreResult.store : RestoreResult → Store
  | .success _ _ st => st
  | .error st => st

/-- String-valued property helpers for the episode rename step. -/
def sGet : List (String × String) → String → Option String
  | [], _ => none
  | (k, v) :: rest, key => if k = key then some v else sGet rest key

def sSet : List (String × String) → String → String → List (String × String)
  | [], key, v => [(key, v)]
  | (k, w) :: rest, key, v =>
      if k = key then (key, v) :: rest else (k, w) :: sSet rest key v

/-- The rename pass of restore_backup (lines 258-265): when restoring under a
different user id, rewrite each episode name that starts with the original
user id followed by an underscore (replacing that first occurrence), and
update a group_id equal to the original user id. -/
def renameEpisode (origU newU : String) (r : NodeRec) : NodeRec :=
  let p1 :=
    match sGet r.props "name" with
    | some n =>
        if (origU ++ "_").isPrefixOf n then
          sSet r.props "name" (newU ++ "_" ++ n.drop (origU ++ "_").length)
        else r.props
    | none => r.props
  let p2 :=
    match sGet p1 "group_id" with
    | some g => if g = origU then sSet p1 "group_id" newU else p1
    | none => p1
  { r with props := p2 }

/-- Whether one of the three data streams is present, non-empty and
unparseable.  In the source the parse failure is meant to degrade to an
empty list, but the handler clause
except (original_json.JSONDecodeError, ValueError) refers to the name
original_json, which backup_service.py never defines; evaluating the clause
raises NameError, which escapes to the outer handler, so the restore returns
an error response instead. -/
def StreamData.isInvalid {α : Type} : StreamData α → Bool
  | .invalid => true
  | _ => false

/-- Whether a stream entry is missing from the archive (fatal: the source
raises ValueError for missing data files, caught by the outer handler). -/
def StreamData.isMissing {α : Type} : StreamData α → Bool
  | .missing => true
  | _ => false

/-- The parsed records of a stream once the parse stage has been passed. -/
def StreamData.recs {α : Type} : StreamData α → List α
  | .valid rs => rs
  | _ => []

/-- restore_backup (lines 187-286).  The replace flag is accepted and
ignored; a missing metadata.json is fatal; missing data files are fatal; a
non-empty unparseable data stream aborts the restore with an error response
because of the undefined original_json name in the except clause (see
StreamData.isInvalid); otherwise the episodes are optionally renamed and the
data is imported with merge semantics. -/
def restoreBackup (a : Archive) (replace : Bool) (newUserId : Option String) (s : Store) :
    RestoreResult :=
  let _ := replace
  match a.metadata with
  | none => .error s
  | some origUser =>
      if a.episodes.isMissing || a.entities.isMissing || a.edges.isMissing then .error s
      else if a.episodes.isInvalid || a.entities.isInvalid || a.edges.isInvalid then .error s
      else
        let target := newUserId.getD origUser
        let eps :=
          match newUserId with
          | some nu => if nu ≠ origUser then a.episodes.recs.map (renameEpisode origUser nu)
                       else a.episodes.recs
          | none => a.episodes.recs
        let out := importData s eps a.entities.recs a.edges.recs
        .success target out.2 out.1

/-!
### Episode Lifecycle Manager
Embedding of GraphitiWrapper.add_episode and delete_pending_episode
(graphiti_client.py lines 749-916).  The pending collection and the
processed-episode collection are the relevant store state; the graphiti
SDK write (client.add_episode plus the optional file-name tag query) is the
processing step, whose success or failure is an explicit outcome.
-/

/-- A PendingEpisode node. -/
structure Pending where
  uuid : String
  user_id : String
  content : String
deriving DecidableEq

/-- A processed Episodic record (the fields the lifecycle touches). -/
structure Episode where
  name : String
  group_id : String
  body : String
deriving DecidableEq

/-- The lifecycle-relevant graph state. -/
structure GState where
  pendings : List Pending
  episodes : List Episode
deriving DecidableEq

/-- delete_pending_episode (lines 798-818):
MATCH (p:PendingEpisode) WHERE p.user_id = $user_id AND p.content = $text
DETACH DELETE p — every pending record of that user with exactly that
content is deleted, whatever its uuid. -/
def deletePendingEpisode (s : GState) (userId text : String) : GState :=
  { s with pendings := s.pendings.filter (fun p => !(p.user_id == userId && p.content == text)) }

/-- Outcome of the asynchronous processing step (the SDK write together with
the optional file-name tag query): it completes, or it raises. -/
inductive ProcOutcome where
  | ok
  | raised
deriving DecidableEq

/-- add_episode (lines 855-916): on success the processed episode is
persisted under the generated name, the matching pending records are cleaned
up, and true (success) is returned; on failure the exception is re-raised —
the pending records are deliberately NOT deleted so the retry sweep can pick
them up. -/
def addEpisode (s : GState) (userId text name : String) (outcome : ProcOutcome) :
    GState × Bool :=
  match outcome with
  | .ok =>
      let s1 : GState := { s with episodes := s.episodes ++ [⟨name, userId, text⟩] }
      (deletePendingEpisode s1 userId text, true)
  | .raised => (s, false)

/-!
### Search wrapper and query endpoint
Embedding of GraphitiWrapper.search (graphiti_client.py lines 918-1022) and
query_memory (memory.py lines 57-70).  Hits are abstracted to their fact
strings; the underlying graph searches are an explicit outcome.
-/

/-- What the underlying graph searches do during one call: the reranker
search succeeds; or it raises and the basic-search fallback succeeds; or
both raise (the graph search fails outright). -/
inductive SearchStep where
  | rerankOk (hits : List String)
  | rerankFailBasicOk (hits : List String)
  | bothFail
deriving DecidableEq

/-- GraphitiWrapper.search: results are truncated to the limit; any
exception reaching the outer handler is logged and absorbed, returning the
empty list (lines 1020-1022). -/
def wrapperSearch (step : SearchStep) (limit : Nat) : List String :=
  match step with
  | .rerankOk hits => hits.take limit
  | .rerankFailBasicOk hits => hits.take limit
  | .bothFail => []

/-- The HTTP response of the query endpoint: its status code, the hit list
and the reported total. -/
structure QueryResponse where
  status : Nat
  hits : List String
  total : Nat
deriving DecidableEq

/-- query_memory: calls the search wrapper and returns a 200 response with
the hits and their count.  The except branch (HTTP 500) is reachable only
for failures outside the search call, since the wrapper never raises. -/
def queryMemory (step : SearchStep) (limit : Nat) : QueryResponse :=
  let hits := wrapperSearch step limit
  { status := 200, hits := hits, total := hits.length }

/-!
### Concrete fixtures
Small concrete values used to evaluate the embedded code at specific inputs
(counterexamples, failing inputs and witnesses).
-/

/-- An empty graph store. -/
def emptyStore : Store := { episodes := [], entities := [], edges := [] }

/-- A one-episode archive record. -/
def epRec : NodeRec :=
  { uuid := "ep-1", created_at := "2024-01-01T00:00:00Z", props := [("name", "u_2024")] }

/-- A one-entity archive record. -/
def enRec : NodeRec :=
  { uuid := "en-1", created_at := "2024-01-01T00:00:01Z", props := [("name", "alice")] }

/-- A one-edge archive record (a self-loop on the single entity). -/
def edRec : EdgeRec :=
  { uuid := "ed-1", etype := "LIKES", source_uuid := "en-1", target_uuid := "en-1",
    created_at := "2024-01-01T00:00:02Z", props := [] }

/-- An archive holding exactly one episode, one entity and one edge. -/
def archOne : Archive :=
  { metadata := some "u", episodes := .valid [epRec], entities := .valid [enRec],
    edges := .valid [edRec] }

/-- The store produced by restoring archOne into an empty store. -/
def storeOne : Store := { episodes := [epRec], entities := [enRec], edges := [edRec] }

/-- An archive whose episodes stream is non-empty but unparseable. -/
def archBadEpisodes : Archive :=
  { metadata := some "u", episodes := .invalid, entities := .valid [], edges := .valid [] }

/-- An archive whose three data streams are present but empty. -/
def archEmptyStreams : Archive :=
  { metadata := some "u", episodes := .empty, entities := .empty, edges := .empty }

/-- A pending record of user u with content hello. -/
def pendA : Pending := { uuid := "pa", user_id := "u", content := "hello" }

/-- A second pending record of the same user with the same content and a
different uuid (the same text ingested twice). -/
def pendB : Pending := { uuid := "pb", user_id := "u", content := "hello" }

/-- Lifecycle state holding one matching pending record. -/
def gsOne : GState := { pendings := [pendA], episodes := [] }

/-- Lifecycle state holding two pending records with identical text. -/
def gsTwo : GState := { pendings := [pendA, pendB], episodes := [] }

/-- A concrete router configuration with distinct backends and keys. -/
def cfgFx : RouterConfig :=
  { mainBase := { raw := "http://main:8000/v1", scheme := "http", netloc := "main:8000" },
    mainKey := "main-key",
    fastBase := { raw := "http://fast:9000/v1", scheme := "http", netloc := "fast:9000" },
    fastKey := "fast-key",
    fastModel := "qwen-fast" }

/-- A concrete outbound request naming the fast model in its body. -/
def reqFast : HttpRequest :=
  { method := "POST", scheme := "http", netloc := "main:8000",
    path := "/v1/chat/completions", params := "", query := "a=1", fragment := "",
    authorization := "Bearer main-key",
    body := some (.obj [("model", .str "qwen-fast"), ("messages", .arr [])]) }

/-- A concrete store with one pre-existing entity for the restore frame
witness. -/
def storeWitness : Store :=
  { episodes := [], entities := [{ uuid := "pre-1", created_at := "t0", props := [] }],
    edges := [] }

/-!
## Lemmas
Basic facts about the dictionary operations and the import folds, shared by
the claim theorems below.
-/

theorem jGet_jSet (l : List (String × JVal)) (k : String) (v : JVal) (k' : String) :
    jGet (jSet l k v) k' = if k = k' then some v else jGet l k' := by
  induction l with
  | nil => simp [jSet, jGet]
  | cons hd tl ih =>
      obtain ⟨a, b⟩ := hd
      by_cases hak : a = k
      · subst hak
        by_cases hk' : a = k' <;> simp [jSet, jGet, hk']
      · by_cases hk' : a = k'
        · subst hk'
          have hkk' : ¬ k = a := fun h => hak h.symm
          simp [jSet, jGet, hak, hkk']
        · simp [jSet, jGet, hak, hk', ih]

theorem jGet_jErase (l : List (String × JVal)) (k k' : String) :
    jGet (jErase l k) k' = if k = k' then none else jGet l k' := by
  induction l with
  | nil => simp [jErase, jGet]
  | cons hd tl ih =>
      obtain ⟨a, b⟩ := hd
      by_cases hak : a = k
      · rw [jErase, if_pos hak, ih]
        by_cases hkk' : k = k'
        · rw [if_pos hkk', if_pos hkk']
        · rw [if_neg hkk', if_neg hkk', jGet,
            if_neg (fun h => hkk' (hak.symm.trans h))]
      · rw [jErase, if_neg hak, jGet]
        by_cases hak' : a = k'
        · have hkk' : ¬ k = k' := fun h => hak (hak'.trans h.symm)
          rw [if_pos hak', if_neg hkk', jGet, if_pos hak']
        · rw [if_neg hak', ih]
          by_cases hkk' : k = k'
          · rw [if_pos hkk', if_pos hkk']
          · rw [if_neg hkk', if_neg hkk', jGet, if_neg hak']

theorem jGet_jRename (l : List (String × JVal)) (old new k : String) (v : JVal)
    (hv : jGet l old = some v) :
    jGet (jRename l old new) k =
      if new = k then some v else if old = k then none else jGet l k := by
  unfold jRename
  rw [hv, jGet_jSet, jGet_jErase]

theorem findNode_append_some (l l2 : List NodeRec) (u : String) (n : NodeRec)
    (h : findNode l u = some n) : findNode (l ++ l2) u = some n := by
  induction l with
  | nil => exact absurd h (by simp [findNode])
  | cons hd tl ih =>
      by_cases hu : hd.uuid = u
      · rw [findNode, if_pos hu] at h
        simpa only [List.cons_append, findNode, if_pos hu] using h
      · rw [findNode, if_neg hu] at h
        simpa only [List.cons_append, findNode, if_neg hu] using ih h

theorem findNode_of_append_none (l l2 : List NodeRec) (u : String)
    (h : findNode (l ++ l2) u = none) : findNode l u = none := by
  cases hn : findNode l u with
  | none => rfl
  | some n =>
      rw [findNode_append_some l l2 u n hn] at h
      exact absurd h (by simp)

theorem mergeNode_preserves (l : List NodeRec) (r : NodeRec) (u : String) (n : NodeRec)
    (h : findNode l u = some n) : findNode (mergeNode l r).1 u = some n := by
  cases hf : findNode l r.uuid with
  | some ex => simpa [mergeNode, hf] using h
  | none => simpa [mergeNode, hf] using findNode_append_some l [r] u n h

theorem mergeNode_none_propagates (l : List NodeRec) (r : NodeRec) (u : String)
    (h : findNode (mergeNode l r).1 u = none) : findNode l u = none := by
  cases hf : findNode l r.uuid with
  | some ex => simpa [mergeNode, hf] using h
  | none =>
      rw [mergeNode] at h
      rw [hf] at h
      exact findNode_of_append_none l [r] u h

theorem mergeNode_mem (l : List NodeRec) (r m : NodeRec)
    (h : m ∈ (mergeNode l r).1) : m ∈ l ∨ (m = r ∧ findNode l r.uuid = none) := by
  cases hf : findNode l r.uuid with
  | some ex =>
      left
      simpa [mergeNode, hf] using h
  | none =>
      rw [mergeNode] at h
      rw [hf] at h
      simp only [List.mem_append, List.mem_singleton] at h
      rcases h with h | h
      · exact Or.inl h
      · exact Or.inr ⟨h, rfl⟩

theorem importNodes_preserves (rs l : List NodeRec) (u : String) (n : NodeRec)
    (h : findNode l u = some n) : findNode (importNodes l rs).1 u = some n := by
  induction rs generalizing l with
  | nil => simpa [importNodes] using h
  | cons r rest ih =>
      have h1 := mergeNode_preserves l r u n h
      by_cases hb : (mergeNode l r).2 <;>
        simpa [importNodes, hb] using ih (mergeNode l r).1 h1

theorem importNodes_mem (rs l : List NodeRec) (m : NodeRec)
    (h : m ∈ (importNodes l rs).1) : m ∈ l ∨ findNode l m.uuid = none := by
  induction rs generalizing l with
  | nil =>
      left
      simpa [importNodes] using h
  | cons r rest ih =>
      have h1 : m ∈ (importNodes (mergeNode l r).1 rest).1 := by
        by_cases hb : (mergeNode l r).2 <;> simpa [importNodes, hb] using h
      rcases ih (mergeNode l r).1 h1 with hm | hn
      · rcases mergeNode_mem l r m hm with hl | ⟨hmr, hnone⟩
        · exact Or.inl hl
        · exact Or.inr (hmr ▸ hnone)
      · exact Or.inr (mergeNode_none_propagates l r m.uuid hn)

theorem findEdge_append_some (l l2 : List EdgeRec) (src tgt ty u : String) (e : EdgeRec)
    (h : findEdge l src tgt ty u = some e) : findEdge (l ++ l2) src tgt ty u = some e := by
  induction l with
  | nil => exact absurd h (by simp [findEdge])
  | cons hd tl ih =>
      by_cases hu : hd.source_uuid = src ∧ hd.target_uuid = tgt ∧ hd.etype = ty ∧ hd.uuid = u
      · rw [findEdge, if_pos hu] at h
        simpa only [List.cons_append, findEdge, if_pos hu] using h
      · rw [findEdge, if_neg hu] at h
        simpa only [List.cons_append, findEdge, if_neg hu] using ih h

theorem findEdge_of_append_none (l l2 : List EdgeRec) (src tgt ty u : String)
    (h : findEdge (l ++ l2) src tgt ty u = none) : findEdge l src tgt ty u = none := by
  cases hn : findEdge l src tgt ty u with
  | none => rfl
  | some e =>
      rw [findEdge_append_some l l2 src tgt ty u e hn] at h
      exact absurd h (by simp)

theorem mergeEdge_preserves (ents : List NodeRec) (l : List EdgeRec) (r : EdgeRec)
    (src tgt ty u : String) (e : EdgeRec)
    (h : findEdge l src tgt ty u = some e) :
    findEdge (mergeEdge ents l r).1 src tgt ty u = some e := by
  by_cases hg : ((findNode ents r.source_uuid).isSome && (findNode ents r.target_uuid).isSome) = true
  · cases hf : findEdge l r.source_uuid r.target_uuid r.etype r.uuid with
    | some ex => simpa [mergeEdge, hg, hf] using h
    | none => simpa [mergeEdge, hg, hf] using findEdge_append_some l [r] src tgt ty u e h
  · simpa [mergeEdge, hg] using h

theorem mergeEdge_none_propagates (ents : List NodeRec) (l : List EdgeRec) (r : EdgeRec)
    (src tgt ty u : String)
    (h : findEdge (mergeEdge ents l r).1 src tgt ty u = none) :
    findEdge l src tgt ty u = none := by
  by_cases hg : ((findNode ents r.source_uuid).isSome && (findNode ents r.target_uuid).isSome) = true
  · cases hf : findEdge l r.source_uuid r.target_uuid r.etype r.uuid with
    | some ex => simpa [mergeEdge, hg, hf] using h
    | none =>
        rw [mergeEdge, if_pos hg] at h
        rw [hf] at h
        exact findEdge_of_append_none l [r] src tgt ty u h
  · simpa [mergeEdge, hg] using h

theorem mergeEdge_mem (ents : List NodeRec) (l : List EdgeRec) (r m : EdgeRec)
    (h : m ∈ (mergeEdge ents l r).1) :
    m ∈ l ∨ (m = r ∧ findEdge l r.source_uuid r.target_uuid r.etype r.uuid = none) := by
  by_cases hg : ((findNode ents r.source_uuid).isSome && (findNode ents r.target_uuid).isSome) = true
  · cases hf : findEdge l r.source_uuid r.target_uuid r.etype r.uuid with
    | some ex =>
        left
        simpa [mergeEdge, hg, hf] using h
    | none =>
        rw [mergeEdge, if_pos hg] at h
        rw [hf] at h
        simp only [List.mem_append, List.mem_singleton] at h
        rcases h with h | h
        · exact Or.inl h
        · exact Or.inr ⟨h, rfl⟩
  · left
    simpa [mergeEdge, hg] using h

theorem importEdges_preserves (rs : List EdgeRec) (ents : List NodeRec) (l : List EdgeRec)
    (src tgt ty u : String) (e : EdgeRec)
    (h : findEdge l src tgt ty u = some e) :
    findEdge (importEdges ents l rs).1 src tgt ty u = some e := by
  induction rs generalizing l with
  | nil => simpa [importEdges] using h
  | cons r rest ih =>
      have h1 := mergeEdge_preserves ents l r src tgt ty u e h
      rcases hb : (mergeEdge ents l r).2 with _ | b
      · simpa [importEdges, hb] using ih (mergeEdge ents l r).1 h1
      · cases b <;> simpa [importEdges, hb] using ih (mergeEdge ents l r).1 h1

theorem importEdges_mem (rs : List EdgeRec) (ents : List NodeRec) (l : List EdgeRec)
    (m : EdgeRec) (h : m ∈ (importEdges ents l rs).1) :
    m ∈ l ∨ findEdge l m.source_uuid m.target_uuid m.etype m.uuid = none := by
  induction rs generalizing l with
  | nil =>
      left
      simpa [importEdges] using h
  | cons r rest ih =>
      have h1 : m ∈ (importEdges ents (mergeEdge ents l r).1 rest).1 := by
        rcases hb : (mergeEdge ents l r).2 with _ | b
        · simpa [importEdges, hb] using h
        · cases b <;> simpa [importEdges, hb] using h
      rcases ih (mergeEdge ents l r).1 h1 with hm | hn
      · rcases mergeEdge_mem ents l r m hm with hl | ⟨hmr, hnone⟩
        · exact Or.inl hl
        · exact Or.inr (hmr ▸ hnone)
      · exact Or.inr
          (mergeEdge_none_propagates ents l r m.source_uuid m.target_uuid m.etype m.uuid hn)

theorem stepShape_obj_no_entities (chat : Bool) (fs : List (String × JVal))
    (h : jGet fs "entities" = none) : stepShape chat (.obj fs) = (.obj fs, false) := by
  simp [stepShape, jHas, h]

theorem stepFacts_some (fs : List (String × JVal)) (m : Bool) (v : JVal)
    (h : jGet fs "facts" = some v) :
    stepFacts (.obj fs, m) = (.obj (jRename fs "facts" "edges"), true) := by
  simp [stepFacts, jHas, h]

theorem stepFacts_none (fs : List (String × JVal)) (m : Bool)
    (h : jGet fs "facts" = none) : stepFacts (.obj fs, m) = (.obj fs, m) := by
  simp [stepFacts, jHas, h]

theorem stepEntitiesOut_none (fs : List (String × JVal)) (m : Bool)
    (h : jGet fs "extracted_entities" = none) :
    stepEntitiesOut (.obj fs, m) = some (.obj fs, m) := by
  simp [stepEntitiesOut, jHas, h]

theorem stepEntitiesChat_none (fs : List (String × JVal)) (m : Bool)
    (h : jGet fs "extracted_entities" = none) :
    stepEntitiesChat (.obj fs, m) = some (.obj fs, m, false) := by
  simp [stepEntitiesChat, jHas, h]

/-- Passing through the extracted_entities block of the output path: the
block only touches the extracted_entities and entity_resolutions keys, and a
modified flag that was already set stays set. -/
theorem stepEntitiesOut_arr (fs : List (String × JVal)) (m : Bool)
    (xs : List JVal) (hEE : jGet fs "extracted_entities" = some (.arr xs)) :
    ∃ fs2 m2, stepEntitiesOut (.obj fs, m) = some (.obj fs2, m2) ∧
      (∀ k, k ≠ "extracted_entities" → k ≠ "entity_resolutions" → jGet fs2 k = jGet fs k) ∧
      (m = true → m2 = true) := by
  have hget : (jGet fs "extracted_entities").getD .null = .arr xs := by rw [hEE]; rfl
  have hHas : jHas fs "extracted_entities" = true := by simp [jHas, hEE]
  set ys := xs.map (fun e => (fixEntity e).1) with hys
  set mE := xs.any (fun e => (fixEntity e).2) with hmE
  have hloop : entityLoop ((jGet fs "extracted_entities").getD .null) = some (.arr ys, mE) := by
    rw [hget]; rfl
  set fs1 := jSet fs "extracted_entities" (.arr ys) with hfs1
  have hfs1get : ∀ k, k ≠ "extracted_entities" → jGet fs1 k = jGet fs k := by
    intro k hk
    rw [hfs1, jGet_jSet, if_neg (fun h => hk h.symm)]
  have hfs1EE : jGet fs1 "extracted_entities" = some (.arr ys) := by
    rw [hfs1, jGet_jSet, if_pos rfl]
  by_cases hdup : headHasDuplicates (.arr ys) = true
  · refine ⟨jRename fs1 "extracted_entities" "entity_resolutions", true, ?_, ?_, fun _ => rfl⟩
    · simp [stepEntitiesOut, hHas, hloop, hdup]
    · intro k hk1 hk2
      rw [jGet_jRename fs1 "extracted_entities" "entity_resolutions" k (.arr ys) hfs1EE]
      rw [if_neg (fun h => hk2 h.symm), if_neg (fun h => hk1 h.symm)]
      exact hfs1get k hk1
  · refine ⟨fs1, m || mE, ?_, fun k hk1 _ => hfs1get k hk1, ?_⟩
    · simp [stepEntitiesOut, hHas, hloop, hdup]
    · intro hm
      rw [hm]; rfl

/-- Passing through the extracted_entities block of the chat path when the
object has no extracted_edges key: the nested rename does not fire, the block
only touches the extracted_entities and entity_resolutions keys, the
re-serialization flag equals the modified flag, and a modified flag that was
already set stays set. -/
theorem stepEntitiesChat_arr_no_edges (fs : List (String × JVal)) (m : Bool)
    (xs : List JVal) (hEE : jGet fs "extracted_entities" = some (.arr xs))
    (hXE : jGet fs "extracted_edges" = none) :
    ∃ fs2 m2, stepEntitiesChat (.obj fs, m) = some (.obj fs2, m2, m2) ∧
      (∀ k, k ≠ "extracted_entities" → k ≠ "entity_resolutions" → jGet fs2 k = jGet fs k) ∧
      (m = true → m2 = true) := by
  have hget : (jGet fs "extracted_entities").getD .null = .arr xs := by rw [hEE]; rfl
  have hHas : jHas fs "extracted_entities" = true := by simp [jHas, hEE]
  set ys := xs.map (fun e => (fixEntity e).1) with hys
  set mE := xs.any (fun e => (fixEntity e).2) with hmE
  have hloop : entityLoop ((jGet fs "extracted_entities").getD .null) = some (.arr ys, mE) := by
    rw [hget]; rfl
  set fs1 := jSet fs "extracted_entities" (.arr ys) with hfs1
  have hfs1get : ∀ k, k ≠ "extracted_entities" → jGet fs1 k = jGet fs k := by
    intro k hk
    rw [hfs1, jGet_jSet, if_neg (fun h => hk h.symm)]
  have hfs1EE : jGet fs1 "extracted_entities" = some (.arr ys) := by
    rw [hfs1, jGet_jSet, if_pos rfl]
  have hfs1XE : jGet fs1 "extracted_edges" = none := by
    rw [hfs1get "extracted_edges" (by decide)]
    exact hXE
  by_cases hdup : headHasDuplicates (.arr ys) = true
  · have hfs2XE : jGet (jRename fs1 "extracted_entities" "entity_resolutions")
        "extracted_edges" = none := by
      rw [jGet_jRename fs1 "extracted_entities" "entity_resolutions" "extracted_edges"
        (.arr ys) hfs1EE]
      rw [if_neg (by decide), if_neg (by decide)]
      exact hfs1XE
    have hnoedges : jHas (jRename fs1 "extracted_entities" "entity_resolutions")
        "extracted_edges" = false := by
      simp [jHas, hfs2XE]
    refine ⟨jRename fs1 "extracted_entities" "entity_resolutions", true, ?_, ?_, fun _ => rfl⟩
    · simp [stepEntitiesChat, hHas, hloop, hdup, hnoedges]
    · intro k hk1 hk2
      rw [jGet_jRename fs1 "extracted_entities" "entity_resolutions" k (.arr ys) hfs1EE]
      rw [if_neg (fun h => hk2 h.symm), if_neg (fun h => hk1 h.symm)]
      exact hfs1get k hk1
  · have hnoedges : jHas fs1 "extracted_edges" = false := by
      simp [jHas, hfs1XE]
    refine ⟨fs1, m || mE, ?_, fun k hk1 _ => hfs1get k hk1, ?_⟩
    · simp [stepEntitiesChat, hHas, hloop, hdup, hnoedges]
    · intro hm
      rw [hm]; rfl

/-- The nested extracted_edges rename of the chat path: it fires when the
object carries both extracted_entities (a list) and extracted_edges; the
modified flag is then set, so the nested re-serialization also fires and the
edges key is delivered. -/
theorem stepEntitiesChat_arr_edges (fs : List (String × JVal)) (m : Bool)
    (xs : List JVal) (w : JVal)
    (hEE : jGet fs "extracted_entities" = some (.arr xs))
    (hXE : jGet fs "extracted_edges" = some w) :
    ∃ fs2, stepEntitiesChat (.obj fs, m) = some (.obj fs2, true, true) ∧
      jGet fs2 "edges" = some w ∧ jGet fs2 "extracted_edges" = none := by
  have hget : (jGet fs "extracted_entities").getD .null = .arr xs := by rw [hEE]; rfl
  have hHas : jHas fs "extracted_entities" = true := by simp [jHas, hEE]
  set ys := xs.map (fun e => (fixEntity e).1) with hys
  set mE := xs.any (fun e => (fixEntity e).2) with hmE
  have hloop : entityLoop ((jGet fs "extracted_entities").getD .null) = some (.arr ys, mE) := by
    rw [hget]; rfl
  set fs1 := jSet fs "extracted_entities" (.arr ys) with hfs1
  have hfs1get : ∀ k, k ≠ "extracted_entities" → jGet fs1 k = jGet fs k := by
    intro k hk
    rw [hfs1, jGet_jSet, if_neg (fun h => hk h.symm)]
  have hfs1EE : jGet fs1 "extracted_entities" = some (.arr ys) := by
    rw [hfs1, jGet_jSet, if_pos rfl]
  have hfs1XE : jGet fs1 "extracted_edges" = some w := by
    rw [hfs1get "extracted_edges" (by decide)]
    exact hXE
  by_cases hdup : headHasDuplicates (.arr ys) = true
  · set fs2 := jRename fs1 "extracted_entities" "entity_resolutions" with hfs2
    have hfs2XE : jGet fs2 "extracted_edges" = some w := by
      rw [hfs2, jGet_jRename fs1 "extracted_entities" "entity_resolutions" "extracted_edges"
        (.arr ys) hfs1EE]
      rw [if_neg (by decide), if_neg (by decide)]
      exact hfs1XE
    have hedges : jHas fs2 "extracted_edges" = true := by
      simp [jHas, hfs2XE]
    refine ⟨jRename fs2 "extracted_edges" "edges", ?_, ?_, ?_⟩
    · simp [stepEntitiesChat, hHas, hloop, hdup, ← hfs2, hedges]
    · rw [jGet_jRename fs2 "extracted_edges" "edges" "edges" w hfs2XE, if_pos rfl]
    · rw [jGet_jRename fs2 "extracted_edges" "edges" "extracted_edges" w hfs2XE]
      rw [if_neg (by decide), if_pos rfl]
  · have hedges : jHas fs1 "extracted_edges" = true := by
      simp [jHas, hfs1XE]
    refine ⟨jRename fs1 "extracted_edges" "edges", ?_, ?_, ?_⟩
    · simp [stepEntitiesChat, hHas, hloop, hdup, hedges]
    · rw [jGet_jRename fs1 "extracted_edges" "edges" "edges" w hfs1XE, if_pos rfl]
    · rw [jGet_jRename fs1 "extracted_edges" "edges" "extracted_edges" w hfs1XE]
      rw [if_neg (by decide), if_pos rfl]

theorem stepEdgesTop_some (fs : List (String × JVal)) (m : Bool) (w : JVal)
    (h : jGet fs "extracted_edges" = some w) :
    stepEdgesTop (.obj fs, m) = (.obj (jRename fs "extracted_edges" "edges"), true) := by
  simp [stepEdgesTop, jHas, h]

theorem stepEdgesTop_none (fs : List (String × JVal)) (m : Bool)
    (h : jGet fs "extracted_edges" = none) : stepEdgesTop (.obj fs, m) = (.obj fs, m) := by
  simp [stepEdgesTop, jHas, h]

/-- A modified object result is re-serialized by the output-path tail. -/
theorem finishClean_obj_modified (parsed : JVal) (l2 : List (String × JVal)) :
    finishClean parsed (some (.obj l2, true)) = .reserialized (.obj l2) := rfl

/-- When the re-serialization nested in the chat extracted_entities block
ran, the chat tail replaces the content with the serialized object. -/
theorem finishChat_dumped (parsed : JVal) (l2 : List (String × JVal)) (m : Bool) :
    finishChat parsed (some (.obj l2, m, true)) = .reserialized (.obj l2) := rfl

/-- When the nested re-serialization did not run, content of an object-shaped
response keeps its original bytes and the response is returned unchanged,
whatever the modified flag says about the in-memory dict. -/
theorem finishChat_not_dumped_obj (fs : List (String × JVal)) (p : JVal) (m : Bool) :
    finishChat (.obj fs) (some (p, m, false)) = .unchanged := rfl

/-!
## Claim theorems
-/

/-- Claim C1 (code bug, evaluated at the failing input): for an archive with
metadata.json present and a non-empty episodes.json that fails to parse,
restore_backup does NOT degrade the stream to an empty collection and
succeed — the except clause that should catch the parse error names the
undefined identifier original_json, so a NameError escapes to the outer
handler and the whole restore returns an error result.  By contrast an
archive whose data streams are present but empty restores successfully with
zero counts, which is the degradation the spec describes. -/
theorem C1_unparseable_stream_aborts_restore :
    restoreBackup archBadEpisodes false none emptyStore = .error emptyStore ∧
    restoreBackup archEmptyStreams false none emptyStore
      = .success "u"
          { episodes_created := 0, entities_created := 0, edges_created := 0,
            conflicts_skipped := 0 } emptyStore :=
  ⟨rfl, rfl⟩

/-- Claim C2 (code bug, evaluated at the failing input): restoring a
one-episode, one-entity, one-edge archive into an empty store reports 1/1/1
created and 0 conflicts as the claim states; but restoring the SAME archive
a second time reports 1/1/1 created and 0 conflicts again, not 0 created and
3 conflicts — the created/existing CASE of _import_data compares the stored
created_at with the incoming one, and an identical re-imported record
always compares equal.  No duplicate records are created: the store after
the second restore is unchanged. -/
theorem C2_second_restore_miscounts :
    restoreBackup archOne false none emptyStore
      = .success "u"
          { episodes_created := 1, entities_created := 1, edges_created := 1,
            conflicts_skipped := 0 } storeOne ∧
    restoreBackup archOne false none storeOne
      = .success "u"
          { episodes_created := 1, entities_created := 1, edges_created := 1,
            conflicts_skipped := 0 } storeOne :=
  ⟨rfl, rfl⟩

/-- Claim C4, counterexample: chat-completion content parsing to the plain
JSON string hi is wrapped as a summary object with an empty
extracted_entities collection but WITHOUT any edges key, contradicting the
claim that an empty edges collection is included. -/
theorem C4_counterexample_string_wrap_lacks_edges :
    normalizeChat (.str "hi")
      = .reserialized (.obj [("summary", .str "hi"), ("extracted_entities", .arr [])]) ∧
    resultHasKey (normalizeChat (.str "hi")) "edges" = false :=
  ⟨rfl, rfl⟩

/-- Claim C4 as amended: for every 200 chat-completion response whose
extracted content parses as a plain JSON string, the normalizer replaces the
content with an object whose summary equals that string and whose
extracted_entities collection is empty; no edges key is added. -/
theorem C4_amended_string_wrap (s : String) :
    normalizeChat (.str s)
      = .reserialized (.obj [("summary", .str s), ("extracted_entities", .arr [])]) :=
  rfl

/-- Claim C5: with the upstream answering 503, then 500, then 200, and the
elapsed wall clock still inside the 30-second budget when each failure is
examined, the retry loop performs exactly three underlying attempts and two
backoff sleeps and returns the 200 response. -/
theorem C5_retry_three_attempts_two_sleeps (elapsed : Nat → Nat)
    (h1 : elapsed 1 < retryTimeout) (h2 : elapsed 2 < retryTimeout) :
    runRetries elapsed [.resp 503, .resp 500, .resp 200] = .response 200 3 2 := by
  have h1' : ¬ (retryTimeout ≤ elapsed 1) := Nat.not_le.mpr h1
  have h2' : ¬ (retryTimeout ≤ elapsed 2) := Nat.not_le.mpr h2
  simp [runRetries, retryLoop, h1', h2']

/-- Witness for C5 at a concrete elapsed-time oracle (five seconds per
backoff interval). -/
theorem C5_retry_three_attempts_two_sleeps_witness :
    runRetries (fun k => retryInterval * k) [.resp 503, .resp 500, .resp 200]
      = .response 200 3 2 :=
  C5_retry_three_attempts_two_sleeps (fun k => retryInterval * k) (by decide) (by decide)

/-- Claim C7: a pending record of the owning user with exactly the processed
text is deleted by add_episode exactly when the processing step succeeds;
when the processing step raises, the pending collection is untouched, so the
record still exists for the retry sweep. -/
theorem C7_pending_deleted_iff_processing_succeeds (s : GState)
    (userId text name : String) (outcome : ProcOutcome) (p : Pending)
    (hp : p ∈ s.pendings) (hu : p.user_id = userId) (hc : p.content = text) :
    ((p ∉ (addEpisode s userId text name outcome).1.pendings) ↔
      (addEpisode s userId text name outcome).2 = true) ∧
    ((addEpisode s userId text name outcome).2 = true ↔ outcome = .ok) ∧
    (outcome = .raised → (addEpisode s userId text name outcome).1.pendings = s.pendings) := by
  cases outcome with
  | ok =>
      refine ⟨?_, by simp [addEpisode], by simp⟩
      simp only [addEpisode, deletePendingEpisode]
      constructor
      · intro _; trivial
      · intro _ hmem
        rw [List.mem_filter] at hmem
        have hpred := hmem.2
        rw [hu, hc] at hpred
        simp at hpred
  | raised =>
      refine ⟨?_, by simp [addEpisode], fun _ => rfl⟩
      simp only [addEpisode]
      constructor
      · intro hno
        exact absurd hp hno
      · intro hfalse
        exact absurd hfalse (by simp)

/-- Witness for C7 at a concrete state: the single matching pending record is
gone after a successful processing. -/
theorem C7_pending_deleted_iff_processing_succeeds_witness :
    ((pendA ∉ (addEpisode gsOne "u" "hello" "u_t1" .ok).1.pendings) ↔
      (addEpisode gsOne "u" "hello" "u_t1" .ok).2 = true) ∧
    ((addEpisode gsOne "u" "hello" "u_t1" .ok).2 = true ↔ ProcOutcome.ok = .ok) ∧
    (ProcOutcome.ok = .raised →
      (addEpisode gsOne "u" "hello" "u_t1" .ok).1.pendings = gsOne.pendings) :=
  C7_pending_deleted_iff_processing_succeeds gsOne "u" "hello" "u_t1" .ok pendA
    (by simp [gsOne]) rfl rfl

/-- Claim C9, counterexample: when the underlying graph search raises (both
the reranker search and the basic fallback fail), the query endpoint returns
a 200 success response with an empty hit list and total 0 — the failure is
absorbed by the search wrapper, not surfaced as a failure response. -/
theorem C9_counterexample_search_failure_absorbed :
    queryMemory .bothFail 10 = { status := 200, hits := [], total := 0 } :=
  rfl

/-- Claim C9 as amended: a graph-search failure during a synchronous query
request is absorbed by GraphitiWrapper.search, which returns an empty list;
the query endpoint therefore returns a success response with zero hits
rather than a failure response. -/
theorem C9_amended_search_failure_yields_empty_success (limit : Nat) :
    queryMemory .bothFail limit = { status := 200, hits := [], total := 0 } :=
  rfl

/-- Claim C10: pending cleanup matches by owning user and exact content
text, so one successful processing deletes every pending record of that user
with that text — the whole matching set, not only the placeholder of the
request being processed. -/
theorem C10_success_deletes_all_matching_pendings (s : GState)
    (userId text name : String) :
    (addEpisode s userId text name .ok).1.pendings
      = s.pendings.filter (fun p => !(p.user_id == userId && p.content == text)) ∧
    ∀ p ∈ (addEpisode s userId text name .ok).1.pendings,
      ¬(p.user_id = userId ∧ p.content = text) := by
  refine ⟨rfl, ?_⟩
  intro p hp hcon
  simp only [addEpisode, deletePendingEpisode] at hp
  rw [List.mem_filter] at hp
  have hpred := hp.2
  rw [hcon.1, hcon.2] at hpred
  simp at hpred

/-- Witness for C10: with two pending records carrying the same user and the
same text under different uuids, the second one is also gone after a single
successful processing. -/
theorem C10_success_deletes_all_matching_pendings_witness :
    pendB ∉ (addEpisode gsTwo "u" "hello" "u_t2" .ok).1.pendings :=
  fun hmem =>
    (C10_success_deletes_all_matching_pendings gsTwo "u" "hello" "u_t2").2 pendB hmem
      ⟨rfl, rfl⟩

/-- Claim C3, counterexample: a 200 chat-completion response whose extracted
content parses to an object holding ONLY an extracted_edges key (no
extracted_entities) is handed back unchanged — in the chat path both the
extracted_edges rename and the re-serialization statement sit inside the
extracted_entities block and never fire, so no edges key is delivered. -/
theorem C3_counterexample_chat_extracted_edges_kept :
    normalizeChat (.obj [("extracted_edges", .arr [])]) = .unchanged ∧
    resultHasKey (normalizeChat (.obj [("extracted_edges", .arr [])])) "edges" = false :=
  ⟨rfl, rfl⟩

/-- Claim C3 as amended: the facts-to-edges and extracted_edges-to-edges
renames are delivered unconditionally only in the output-array shape.  In
the chat-completion shape BOTH the extracted_edges rename (lines 344-347)
and the re-serialization statement itself (lines 349-350) are nested inside
the extracted_entities block, so an object with no extracted_entities key is
returned byte-for-byte unchanged even when the facts rename fired on the
in-memory dict; when the object does carry extracted_entities (a list, so
the in-place entity loop runs without raising) the renamed object is
re-serialized and delivered.  The hypotheses keep the object clear of the
unrelated entities rename and of a second edge-key source. -/
theorem C3_amended_edges_renames (fs : List (String × JVal)) (v : JVal)
    (hEnt : jGet fs "entities" = none)
    (hEE : jGet fs "extracted_entities" = none ∨
           ∃ xs, jGet fs "extracted_entities" = some (.arr xs)) :
    (jGet fs "facts" = some v → jGet fs "extracted_edges" = none →
      (∃ g, normalizeOutput (.obj fs) = .reserialized (.obj g) ∧
        jGet g "edges" = some v ∧ jGet g "facts" = none) ∧
      (jGet fs "extracted_entities" = none → normalizeChat (.obj fs) = .unchanged) ∧
      (∀ xs, jGet fs "extracted_entities" = some (.arr xs) →
        ∃ g, normalizeChat (.obj fs) = .reserialized (.obj g) ∧
          jGet g "edges" = some v ∧ jGet g "facts" = none)) ∧
    (jGet fs "extracted_edges" = some v → jGet fs "facts" = none →
      (∃ g, normalizeOutput (.obj fs) = .reserialized (.obj g) ∧
        jGet g "edges" = some v ∧ jGet g "extracted_edges" = none) ∧
      (jGet fs "extracted_entities" = none → normalizeChat (.obj fs) = .unchanged) ∧
      (∀ xs, jGet fs "extracted_entities" = some (.arr xs) →
        ∃ g, normalizeChat (.obj fs) = .reserialized (.obj g) ∧
          jGet g "edges" = some v ∧ jGet g "extracted_edges" = none)) := by
  constructor
  · intro hF hXE
    have hg := fun k => jGet_jRename fs "facts" "edges" k v hF
    have hgE : jGet (jRename fs "facts" "edges") "edges" = some v := by
      rw [hg "edges", if_pos rfl]
    have hgF : jGet (jRename fs "facts" "edges") "facts" = none := by
      rw [hg "facts", if_neg (by decide), if_pos rfl]
    have hgEE : jGet (jRename fs "facts" "edges") "extracted_entities"
        = jGet fs "extracted_entities" := by
      rw [hg "extracted_entities", if_neg (by decide), if_neg (by decide)]
    have hgXE : jGet (jRename fs "facts" "edges") "extracted_edges" = none := by
      rw [hg "extracted_edges", if_neg (by decide), if_neg (by decide)]
      exact hXE
    have hshapeC : stepShape true (.obj fs) = (.obj fs, false) :=
      stepShape_obj_no_entities true fs hEnt
    have hshapeO : stepShape false (.obj fs) = (.obj fs, false) :=
      stepShape_obj_no_entities false fs hEnt
    have hfacts : stepFacts (.obj fs, false) = (.obj (jRename fs "facts" "edges"), true) :=
      stepFacts_some fs false v hF
    refine ⟨?_, ?_, ?_⟩
    · rcases hEE with hEEn | ⟨xs, hEEs⟩
      · have hEgn : jGet (jRename fs "facts" "edges") "extracted_entities" = none :=
          hgEE.trans hEEn
        refine ⟨jRename fs "facts" "edges", ?_, hgE, hgF⟩
        rw [normalizeOutput]
        simp only [fixOutput]
        rw [hshapeO, hfacts, stepEntitiesOut_none _ true hEgn]
        rw [Option.map_some']
        rw [stepEdgesTop_none _ true hgXE, finishClean_obj_modified]
      · have hEgs : jGet (jRename fs "facts" "edges") "extracted_entities" = some (.arr xs) :=
          hgEE.trans hEEs
        obtain ⟨fs2, m2, heq, hpres, hm⟩ := stepEntitiesOut_arr _ true xs hEgs
        rw [hm rfl] at heq
        have hfs2XE : jGet fs2 "extracted_edges" = none := by
          rw [hpres "extracted_edges" (by decide) (by decide)]
          exact hgXE
        refine ⟨fs2, ?_, ?_, ?_⟩
        · rw [normalizeOutput]
          simp only [fixOutput]
          rw [hshapeO, hfacts, heq]
          rw [Option.map_some']
          rw [stepEdgesTop_none _ true hfs2XE, finishClean_obj_modified]
        · rw [hpres "edges" (by decide) (by decide)]
          exact hgE
        · rw [hpres "facts" (by decide) (by decide)]
          exact hgF
    · intro hEEn
      have hEgn : jGet (jRename fs "facts" "edges") "extracted_entities" = none :=
        hgEE.trans hEEn
      rw [normalizeChat]
      simp only [fixChat]
      rw [hshapeC, hfacts, stepEntitiesChat_none _ true hEgn, finishChat_not_dumped_obj]
    · intro xs hEEs
      have hEgs : jGet (jRename fs "facts" "edges") "extracted_entities" = some (.arr xs) :=
        hgEE.trans hEEs
      obtain ⟨fs2, m2, heq, hpres, hm⟩ :=
        stepEntitiesChat_arr_no_edges _ true xs hEgs hgXE
      rw [hm rfl] at heq
      refine ⟨fs2, ?_, ?_, ?_⟩
      · rw [normalizeChat]
        simp only [fixChat]
        rw [hshapeC, hfacts, heq, finishChat_dumped]
      · rw [hpres "edges" (by decide) (by decide)]
        exact hgE
      · rw [hpres "facts" (by decide) (by decide)]
        exact hgF
  · intro hXE hF
    have hshapeC : stepShape true (.obj fs) = (.obj fs, false) :=
      stepShape_obj_no_entities true fs hEnt
    have hshapeO : stepShape false (.obj fs) = (.obj fs, false) :=
      stepShape_obj_no_entities false fs hEnt
    have hfacts : stepFacts (.obj fs, false) = (.obj fs, false) :=
      stepFacts_none fs false hF
    refine ⟨?_, ?_, ?_⟩
    · rcases hEE with hEEn | ⟨xs, hEEs⟩
      · have hren := fun k => jGet_jRename fs "extracted_edges" "edges" k v hXE
        refine ⟨jRename fs "extracted_edges" "edges", ?_, ?_, ?_⟩
        · rw [normalizeOutput]
          simp only [fixOutput]
          rw [hshapeO, hfacts, stepEntitiesOut_none fs false hEEn]
          rw [Option.map_some']
          rw [stepEdgesTop_some fs false v hXE, finishClean_obj_modified]
        · rw [hren "edges", if_pos rfl]
        · rw [hren "extracted_edges", if_neg (by decide), if_pos rfl]
      · obtain ⟨fs2, m2, heq, hpres, _⟩ := stepEntitiesOut_arr fs false xs hEEs
        have hfs2XE : jGet fs2 "extracted_edges" = some v := by
          rw [hpres "extracted_edges" (by decide) (by decide)]
          exact hXE
        have hren := fun k => jGet_jRename fs2 "extracted_edges" "edges" k v hfs2XE
        refine ⟨jRename fs2 "extracted_edges" "edges", ?_, ?_, ?_⟩
        · rw [normalizeOutput]
          simp only [fixOutput]
          rw [hshapeO, hfacts, heq]
          rw [Option.map_some']
          rw [stepEdgesTop_some fs2 m2 v hfs2XE, finishClean_obj_modified]
        · rw [hren "edges", if_pos rfl]
        · rw [hren "extracted_edges", if_neg (by decide), if_pos rfl]
    · intro hEEn
      rw [normalizeChat]
      simp only [fixChat]
      rw [hshapeC, hfacts, stepEntitiesChat_none fs false hEEn, finishChat_not_dumped_obj]
    · intro xs hEEs
      obtain ⟨fs2, heq, hE, hXE2⟩ := stepEntitiesChat_arr_edges fs false xs v hEEs hXE
      refine ⟨fs2, ?_, hE, hXE2⟩
      rw [normalizeChat]
      simp only [fixChat]
      rw [hshapeC, hfacts, heq, finishChat_dumped]

/-- Witness for C3 as amended, at a concrete object carrying a facts key
together with an (empty) extracted_entities list: the output shape delivers
the renamed edges key, and so does the chat shape because extracted_entities
is present. -/
theorem C3_amended_edges_renames_witness :
    (∃ g, normalizeOutput (.obj [("facts", .arr []), ("extracted_entities", .arr [])])
        = .reserialized (.obj g) ∧ jGet g "edges" = some (.arr []) ∧
        jGet g "facts" = none) ∧
    (∃ g, normalizeChat (.obj [("facts", .arr []), ("extracted_entities", .arr [])])
        = .reserialized (.obj g) ∧ jGet g "edges" = some (.arr []) ∧
        jGet g "facts" = none) := by
  have T := (C3_amended_edges_renames [("facts", .arr []), ("extracted_entities", .arr [])]
    (.arr []) rfl (Or.inr ⟨[], rfl⟩)).1 rfl rfl
  exact ⟨T.1, T.2.2 [] rfl⟩

/-- Claim C6: a request whose JSON body names the configured fast model is
rerouted to the fast backend (scheme and netloc swapped whenever the two
configured base-url strings differ) with path, params, query, fragment,
method and body preserved and the Authorization header unconditionally set
to the fast-tier bearer key; a request whose body is not valid JSON or lacks
a model field proceeds completely unmodified (given a non-empty configured
fast-model name, since an absent model field defaults to the empty
string). -/
theorem C6_router_fast_model_routing (cfg : RouterConfig) (r : HttpRequest)
    (hfm : cfg.fastModel ≠ "") :
    ((∃ fs, r.body = some (.obj fs) ∧ jGet fs "model" = some (.str cfg.fastModel)) →
      (cfg.fastBase.raw ≠ cfg.mainBase.raw →
        (routeRequest cfg r).scheme = cfg.fastBase.scheme ∧
        (routeRequest cfg r).netloc = cfg.fastBase.netloc) ∧
      (routeRequest cfg r).path = r.path ∧
      (routeRequest cfg r).params = r.params ∧
      (routeRequest cfg r).query = r.query ∧
      (routeRequest cfg r).fragment = r.fragment ∧
      (routeRequest cfg r).method = r.method ∧
      (routeRequest cfg r).body = r.body ∧
      (routeRequest cfg r).authorization = "Bearer " ++ cfg.fastKey) ∧
    ((r.body = none ∨ ∃ fs, r.body = some (.obj fs) ∧ jGet fs "model" = none) →
      routeRequest cfg r = r) := by
  constructor
  · rintro ⟨fs, hb, hm⟩
    have hmatch : modelMatches r.body cfg.fastModel = true := by
      rw [hb]
      simp [modelMatches, hm]
    by_cases hne : cfg.fastBase.raw ≠ cfg.mainBase.raw
    · simp [routeRequest, hmatch, hne]
    · simp [routeRequest, hmatch, hne]
  · intro h
    have hempty : ("" == cfg.fastModel) = false :=
      beq_eq_false_iff_ne.mpr (fun he => hfm he.symm)
    have hmatch : modelMatches r.body cfg.fastModel = false := by
      rcases h with hb | ⟨fs, hb, hm⟩
      · rw [hb]
        simpa [modelMatches] using hempty
      · rw [hb]
        simp [modelMatches, hm]
        simpa using hempty
    simp [routeRequest, hmatch]

/-- Witness for C6 at a concrete configuration and request naming the fast
model: the rerouted request carries the fast scheme, netloc and bearer key
with everything else preserved. -/
theorem C6_router_fast_model_routing_witness :
    (cfgFx.fastBase.raw ≠ cfgFx.mainBase.raw →
      (routeRequest cfgFx reqFast).scheme = cfgFx.fastBase.scheme ∧
      (routeRequest cfgFx reqFast).netloc = cfgFx.fastBase.netloc) ∧
    (routeRequest cfgFx reqFast).path = reqFast.path ∧
    (routeRequest cfgFx reqFast).params = reqFast.params ∧
    (routeRequest cfgFx reqFast).query = reqFast.query ∧
    (routeRequest cfgFx reqFast).fragment = reqFast.fragment ∧
    (routeRequest cfgFx reqFast).method = reqFast.method ∧
    (routeRequest cfgFx reqFast).body = reqFast.body ∧
    (routeRequest cfgFx reqFast).authorization = "Bearer " ++ cfgFx.fastKey :=
  (C6_router_fast_model_routing cfgFx reqFast (by decide)).1
    ⟨[("model", .str "qwen-fast"), ("messages", .arr [])], rfl, rfl⟩

/-- The store left by a restore is either the original store (the error
paths) or the merge-import of the archive data into it. -/
theorem restoreBackup_store_shape (a : Archive) (replace : Bool) (nu : Option String)
    (s : Store) :
    (restoreBackup a replace nu s).store = s ∨
    ∃ eps ents edgs, (restoreBackup a replace nu s).store
      = { episodes := (importNodes s.episodes eps).1,
          entities := (importNodes s.entities ents).1,
          edges := (importEdges (importNodes s.entities ents).1 s.edges edgs).1 } := by
  cases hm : a.metadata with
  | none =>
      left
      simp [restoreBackup, hm, RestoreResult.store]
  | some origU =>
      by_cases h1 : (a.episodes.isMissing || a.entities.isMissing || a.edges.isMissing) = true
      · left
        simp [restoreBackup, hm, h1, RestoreResult.store]
      · by_cases h2 : (a.episodes.isInvalid || a.entities.isInvalid || a.edges.isInvalid) = true
        · left
          simp only [restoreBackup, hm, h1, h2, Bool.false_eq_true, if_false, if_true]
          simp [RestoreResult.store]
        · right
          refine ⟨(match nu with
            | some nuV =>
                if nuV ≠ origU then a.episodes.recs.map (renameEpisode origU nuV)
                else a.episodes.recs
            | none => a.episodes.recs), a.entities.recs, a.edges.recs, ?_⟩
          simp [restoreBackup, hm, h1, h2, RestoreResult.store, importData]

/-- Claim C8: a restore never deletes pre-existing data and never honors the
replace flag: the result is identical whatever the flag; every episode,
entity or edge already present (matched by its id, respectively its full
edge pattern) is still present with all its fields unchanged; and every
record in the resulting store either pre-existed unchanged or had an id
that was absent before — only absent records are created. -/
theorem C8_restore_never_deletes (a : Archive) (replace : Bool) (nu : Option String)
    (s : Store) :
    restoreBackup a replace nu s = restoreBackup a false nu s ∧
    (∀ u n, findNode s.episodes u = some n →
      findNode (restoreBackup a replace nu s).store.episodes u = some n) ∧
    (∀ u n, findNode s.entities u = some n →
      findNode (restoreBackup a replace nu s).store.entities u = some n) ∧
    (∀ src tgt ty u e, findEdge s.edges src tgt ty u = some e →
      findEdge (restoreBackup a replace nu s).store.edges src tgt ty u = some e) ∧
    (∀ n, n ∈ (restoreBackup a replace nu s).store.episodes →
      n ∈ s.episodes ∨ findNode s.episodes n.uuid = none) ∧
    (∀ n, n ∈ (restoreBackup a replace nu s).store.entities →
      n ∈ s.entities ∨ findNode s.entities n.uuid = none) ∧
    (∀ e, e ∈ (restoreBackup a replace nu s).store.edges →
      e ∈ s.edges ∨ findEdge s.edges e.source_uuid e.target_uuid e.etype e.uuid = none) := by
  refine ⟨rfl, ?_, ?_, ?_, ?_, ?_, ?_⟩
  · intro u n h
    rcases restoreBackup_store_shape a replace nu s with hs | ⟨eps, ents, edgs, hs⟩
    · rw [hs]; exact h
    · rw [hs]; exact importNodes_preserves eps s.episodes u n h
  · intro u n h
    rcases restoreBackup_store_shape a replace nu s with hs | ⟨eps, ents, edgs, hs⟩
    · rw [hs]; exact h
    · rw [hs]; exact importNodes_preserves ents s.entities u n h
  · intro src tgt ty u e h
    rcases restoreBackup_store_shape a replace nu s with hs | ⟨eps, ents, edgs, hs⟩
    · rw [hs]; exact h
    · rw [hs]
      exact importEdges_preserves edgs (importNodes s.entities ents).1 s.edges src tgt ty u e h
  · intro n hn
    rcases restoreBackup_store_shape a replace nu s with hs | ⟨eps, ents, edgs, hs⟩
    · rw [hs] at hn; exact Or.inl hn
    · rw [hs] at hn; exact importNodes_mem eps s.episodes n hn
  · intro n hn
    rcases restoreBackup_store_shape a replace nu s with hs | ⟨eps, ents, edgs, hs⟩
    · rw [hs] at hn; exact Or.inl hn
    · rw [hs] at hn; exact importNodes_mem ents s.entities n hn
  · intro e hn
    rcases restoreBackup_store_shape a replace nu s with hs | ⟨eps, ents, edgs, hs⟩
    · rw [hs] at hn; exact Or.inl hn
    · rw [hs] at hn
      exact importEdges_mem edgs (importNodes s.entities ents).1 s.edges e hn

/-- Witness for C8 at a concrete restore with the replace flag set: the
pre-existing entity survives with all its fields intact. -/
theorem C8_restore_never_deletes_witness :
    findNode (restoreBackup archOne true none storeWitness).store.entities "pre-1"
      = some { uuid := "pre-1", created_at := "t0", props := [] } :=
  (C8_restore_never_deletes archOne true none storeWitness).2.2.1 "pre-1"
    { uuid := "pre-1", created_at := "t0", props := [] } rfl

end GraphitiAdapter
